import Mathlib

/-!
# Verification of the regional-dataset reshaping core (`regional_analysis.py`)

Shallow embedding of the indicator-name normalization and wide-to-long
reshaping logic of `src/regional_analysis.py`:

* `get_base_name`   — line 61-62: `re.sub(r'_(\d{2,4})', '', column_name).strip()`
* `get_unique_vars` — line 64-66
* `process_data_v2` — line 68-84 (including the inner `extract_year`,
  `pd.to_numeric(errors='coerce')`, `dropna`, `sort_values('year')`)
* `resolve_aggregate` — the nationwide-fallback branch of the per-region
  plotting loop, lines 141-157 specialised to `reg == "전국"`.

Modelling conventions:
* pandas cells are `Value` (string / rational number / NaN-or-missing as
  `Value.null`); Python floats are modelled as exact rationals `ℚ`.
* Python's regex class `\d` is modelled as `Char.isDigit` (the data's column
  names use ASCII digits) and `str.strip` / whitespace as `Char.isWhitespace`.
* `re.sub`/`re.search` scan left to right; `\d{2,4}` is greedy with nothing
  after it, so each match consumes an underscore plus `min 4` of the digit
  run that follows, provided that run has length ≥ 2.  `subYears` and
  `firstToken` below are direct ports of that behaviour for this one pattern.
* `DataFrame.sort_values('year')` uses pandas' default `kind='quicksort'`
  (numpy introsort), which pandas documents as not stable.  We model the sort
  as a stable insertion sort by year; every result proved below is
  insensitive to the order of records with equal year (the one claim that is
  not — tie-order stability itself — is left unsettled for exactly this
  reason).
-/

namespace RegionalAnalysis

/-- A pandas cell: a string, a number, or NaN/missing (`null`). -/
inductive Value where
  | str (s : String)
  | num (q : ℚ)
  | null
deriving DecidableEq

/-- A row-oriented table: ordered column names and ordered rows, each row an
association list from column name to cell value (absent key = missing). -/
structure Table where
  cols : List String
  rows : List (List (String × Value))
deriving DecidableEq

/-- Cell lookup in a row; a column absent from the row reads as `null`
(pandas fills missing cells of a reindexed/merged frame with NaN). -/
def cellOf (r : List (String × Value)) (c : String) : Value :=
  match r.find? (fun p => p.1 == c) with
  | some p => p.2
  | none => Value.null

/-! ## The year-suffix regex `_(\d{2,4})`

`subYears` is `re.sub(r'_(\d{2,4})', '', ·)` on the character list: scan left
to right; at an underscore followed by a digit run of length ≥ 2, delete the
underscore together with the first `min run 4` digits (greedy `{2,4}`) and
continue scanning after the deleted span; otherwise keep the character and
continue at the next position. -/

/-- Fuelled worker for `subYears` (the fuel keeps the recursion structural,
so the kernel can evaluate it; `l.length` fuel always suffices because every
step consumes at least the leading character). -/
def subYearsF : ℕ → List Char → List Char
  | _, [] => []
  | 0, l => l
  | fuel + 1, c :: rest =>
    if c = '_' then
      let ds := rest.takeWhile Char.isDigit
      if 2 ≤ ds.length then subYearsF fuel (rest.drop (min ds.length 4))
      else c :: subYearsF fuel rest
    else c :: subYearsF fuel rest

def subYears (l : List Char) : List Char := subYearsF l.length l

theorem subYearsF_fuel : ∀ (n m : ℕ) (l : List Char),
    l.length ≤ n → l.length ≤ m → subYearsF n l = subYearsF m l := by
  intro n
  induction n with
  | zero =>
    intro m l hn _
    have : l = [] := List.eq_nil_of_length_eq_zero (Nat.le_zero.mp hn)
    subst this
    cases m <;> rfl
  | succ n ih =>
    intro m l hn hm
    cases l with
    | nil => cases m <;> rfl
    | cons c rest =>
      cases m with
      | zero => exact absurd hm (by simp)
      | succ m =>
        simp only [List.length_cons, Nat.add_le_add_iff_right] at hn hm
        show (if c = '_' then _ else _) = (if c = '_' then _ else _)
        by_cases hc : c = '_' <;> simp only [hc, if_true, if_false]
        · by_cases hds : 2 ≤ (rest.takeWhile Char.isDigit).length <;>
            simp only [hds, if_true, if_false]
          · exact ih m _ (le_trans (by simp [List.length_drop]) hn)
              (le_trans (by simp [List.length_drop]) hm)
          · exact congrArg _ (ih m rest hn hm)
        · exact congrArg _ (ih m rest hn hm)

theorem subYears_nil : subYears [] = [] := rfl

/-- One-step unfolding of `subYears`: scan left to right; at an underscore
followed by a digit run of length ≥ 2, delete the underscore together with
the first `min run 4` digits and continue after them; otherwise keep the
character. -/
theorem subYears_cons (c : Char) (rest : List Char) :
    subYears (c :: rest) =
      if c = '_' then
        (if 2 ≤ (rest.takeWhile Char.isDigit).length then
          subYears (rest.drop (min (rest.takeWhile Char.isDigit).length 4))
        else c :: subYears rest)
      else c :: subYears rest := by
  show subYearsF (rest.length + 1) (c :: rest) = _
  show (if c = '_' then _ else _) = _
  by_cases hc : c = '_' <;> simp only [hc, if_true, if_false]
  · by_cases hds : 2 ≤ (rest.takeWhile Char.isDigit).length <;>
      simp only [hds, if_true, if_false]
    · exact subYearsF_fuel _ _ _ (by simp [List.length_drop]) le_rfl
    · rfl
  · rfl

/-- `re.search(r'_(\d{2,4})', ·)`: the captured group of the leftmost match,
if any — the first `min run 4` digits of the first underscore-led digit run
of length ≥ 2. -/
def firstToken : List Char → Option (List Char)
  | [] => none
  | c :: rest =>
    if c = '_' then
      let ds := rest.takeWhile Char.isDigit
      if 2 ≤ ds.length then some (ds.take 4) else firstToken rest
    else firstToken rest

/-- Python `str.strip()`: drop whitespace from both ends. -/
def trimChars (l : List Char) : List Char :=
  ((l.dropWhile Char.isWhitespace).reverse.dropWhile Char.isWhitespace).reverse

/-- Line 61-62: `return re.sub(r'_(\d{2,4})', '', column_name).strip()`. -/
def get_base_name (column_name : String) : String :=
  String.mk (trimChars (subYears column_name.data))

/-- Numeric value of a digit character ('0' ↦ 0, …, '9' ↦ 9). -/
def digitVal (c : Char) : ℕ := c.toNat - 48

/-- Value of a decimal digit string, as Python `int` on the token. -/
def digitsVal (ds : List Char) : ℕ := ds.foldl (fun a c => a * 10 + digitVal c) 0

/-- Lines 77-79: `full_year = f"20{y}" if len(y) == 2 and int(y) < 50 else y;
return int(full_year)`.  For a 2-character token of value < 50 this prefixes
"20", i.e. adds 2000; any other token keeps its literal integer value. -/
def yearOfToken (ds : List Char) : ℕ :=
  if ds.length = 2 ∧ digitsVal ds < 50 then 2000 + digitsVal ds else digitsVal ds

/-- Lines 74-80: `extract_year` — `re.search(r'_(\d{2,4})', text)`, then the
2-digit expansion, `None` when the pattern does not occur. -/
def extract_year (text : String) : Option ℕ :=
  (firstToken text.data).map yearOfToken

/-! ## `pd.to_numeric(·, errors='coerce')`

Numbers pass through; NaN/missing stays missing; strings are parsed as plain
signed decimal literals (optional surrounding whitespace, optional sign,
digits with an optional single fractional point) — the shapes occurring in
the dataset; anything else coerces to NaN (`none`). -/

def parseDecimal (l : List Char) : Option ℚ :=
  let core := trimChars l
  let signAndMag : ℚ × List Char :=
    match core with
    | '-' :: t => (-1, t)
    | '+' :: t => (1, t)
    | _ => (1, core)
  let sgn := signAndMag.1
  let mag := signAndMag.2
  let ip := mag.takeWhile Char.isDigit
  match mag.drop ip.length with
  | [] => if ip.isEmpty then none else some (sgn * (digitsVal ip : ℚ))
  | '.' :: fp =>
    if fp.all Char.isDigit ∧ ¬(ip.isEmpty ∧ fp.isEmpty) then
      some (sgn * ((digitsVal ip : ℚ) + (digitsVal fp : ℚ) / (10 : ℚ) ^ fp.length))
    else none
  | _ => none

def to_numeric : Value → Option ℚ
  | Value.num q => some q
  | Value.null => none
  | Value.str s => parseDecimal s.data

/-- One long-format record of `process_data_v2`'s result frame: the row-key
cell, the originating column (`item`), the parsed year and the coerced
value. -/
structure SRec where
  region : String
  item : String
  year : ℕ
  value : ℚ
deriving DecidableEq

/-- The string content of a row-key cell (rows reaching this point were
filtered by `isin(regions)`, hence hold strings). -/
def locString : Value → String
  | Value.str s => s
  | _ => ""

/-- Lines 69-83 before the final sort: select the columns whose base name is
`var_name` (line 69), restrict rows by `isin(regions)` (line 71), melt
column-major (line 72: one block per value column, rows in order), attach
`year` and coerced `value`, and drop records where either failed
(`dropna(subset=['year', 'value'])`, line 84). -/
def parsedRecords (df : Table) (regions : List String) (var_name loc_column : String) :
    List SRec :=
  let var_cols := df.cols.filter (fun c => get_base_name c == var_name)
  let sel := df.rows.filter (fun r =>
    match cellOf r loc_column with
    | Value.str s => regions.contains s
    | _ => false)
  (var_cols.flatMap (fun c => sel.map (fun r => (c, r)))).filterMap (fun p =>
    match extract_year p.1, to_numeric (cellOf p.2 p.1) with
    | some y, some q => some ⟨locString (cellOf p.2 loc_column), p.1, y, q⟩
    | _, _ => none)

/-- Ordering of records by year, for `sort_values('year')`. -/
def byYear (a b : SRec) : Prop := a.year ≤ b.year

instance : DecidableRel byYear := fun a b => Nat.decLe a.year b.year

/-- Lines 68-84: `process_data_v2`.  Empty frame when no column matches
(line 70); otherwise the parsed records sorted ascending by year (line 84).
The tie order of pandas' default unstable quicksort is not modelled; a
stable sort by year stands in for it (see the header note). -/
def process_data_v2 (df : Table) (regions : List String) (var_name loc_column : String) :
    List SRec :=
  let var_cols := df.cols.filter (fun c => get_base_name c == var_name)
  if var_cols.isEmpty then []
  else List.insertionSort byYear (parsedRecords df regions var_name loc_column)

/-- Python `k in c` on strings: substring containment. -/
def strContains (c k : String) : Bool :=
  c.data.tails.any (fun t => k.data.isPrefixOf t)

/-- Line 64-66: `get_unique_vars` — columns containing some keyword, mapped
through `get_base_name`, deduplicated (`set`) and sorted (`sorted`,
code-point lexicographic, which is Lean's `≤` on `String`). -/
def get_unique_vars (keywords : List String) (df : Table) : List String :=
  let matched := df.cols.filter (fun c => keywords.any (fun k => strContains c k))
  List.insertionSort (· ≤ ·) ((matched.map get_base_name).dedup)

/-- `df_sido['시도'].unique()`: the distinct raw values of the row-key
column in first-occurrence order.  pandas keeps NaN (and any non-string
key) in this array, so the model keeps `Value.null` and `Value.num` entries
too. -/
def uniqueVals (df : Table) (loc_column : String) : List Value :=
  (df.rows.map (fun r => cellOf r loc_column)).dedup

/-- A long-format record of the pipeline when the regions list holds raw
pandas values: the row-key cell is kept as the raw `Value` (it can be NaN
for a null-keyed row that matched a NaN entry of the regions list). -/
structure VRec where
  region : Value
  item : String
  year : ℕ
  value : ℚ
deriving DecidableEq

/-- Lines 69-83 before the final sort, for a regions list of raw values.
Line 151 passes `unique()`'s output — which can hold NaN and non-string
keys — straight into `process_data_v2`, and pandas `isin` hash-matches a
NaN cell against a NaN entry of the list, so the row filter is plain value
equality (`Value.null` matches `Value.null`, mirroring `isin`'s
NaN-matches-NaN behaviour; cross-type entries never match). -/
def parsedRecordsV (df : Table) (regions : List Value) (var_name loc_column : String) :
    List VRec :=
  let var_cols := df.cols.filter (fun c => get_base_name c == var_name)
  let sel := df.rows.filter (fun r => regions.contains (cellOf r loc_column))
  (var_cols.flatMap (fun c => sel.map (fun r => (c, r)))).filterMap (fun p =>
    match extract_year p.1, to_numeric (cellOf p.2 p.1) with
    | some y, some q => some ⟨cellOf p.2 loc_column, p.1, y, q⟩
    | _, _ => none)

/-- Ordering of raw-value records by year, for `sort_values('year')`. -/
def byYearV (a b : VRec) : Prop := a.year ≤ b.year

instance : DecidableRel byYearV := fun a b => Nat.decLe a.year b.year

/-- Lines 68-84 (`process_data_v2`) for a regions list of raw values: the
code has one function for both the string lists the UI supplies (modelled
by `process_data_v2` above, whose statements restrict to string regions)
and the raw `unique()` output line 151 supplies; this is the same pipeline
with the value-equality row filter.  On an all-string regions list the two
select exactly the same rows and differ only in how the row-key cell is
carried. -/
def process_data_v2_vals (df : Table) (regions : List Value) (var_name loc_column : String) :
    List VRec :=
  let var_cols := df.cols.filter (fun c => get_base_name c == var_name)
  if var_cols.isEmpty then []
  else List.insertionSort byYearV (parsedRecordsV df regions var_name loc_column)

/-- Line 153: `data.groupby('year')['value'].mean()` — ascending distinct
years (groupby sorts its keys), each with the arithmetic mean of that year's
values (the row-key value, NaN or not, plays no part in the grouping). -/
def groupby_year_mean (recs : List VRec) : List (ℕ × ℚ) :=
  let years := List.insertionSort (· ≤ ·) ((recs.map (fun r => r.year)).dedup)
  years.map (fun y =>
    let vs := (recs.filter (fun r => r.year = y)).map (fun r => r.value)
    (y, vs.sum / (vs.length : ℚ)))

/-- Lines 141-157 of the per-region plotting loop, specialised to
`reg == "전국"`: look the nationwide key up in the sido table (line 143),
then, if that came back empty, in the sigungu table (lines 146-147); if the
resulting frame is empty or its values all null (line 150; after `dropna`
no null value survives, so this is emptiness), replace it by the per-year
mean over every sido row whose key is a value other than the string "전국"
(lines 151-153 — `unique()` keeps NaN and non-string keys, `nan != "전국"`
is `True`, and `isin` matches NaN-keyed rows, so those rows feed the mean),
and skip the trace entirely (`continue`, line 155) when even that is empty.
The result is the plotted `(year, value)` series, `none` when skipped. -/
def resolve_aggregate (df_sido df_sigungu : Table) (target_var : String) :
    Option (List (ℕ × ℚ)) :=
  let data0 := process_data_v2_vals df_sido [Value.str "전국"] target_var "시도"
  let data := if data0.isEmpty then
                process_data_v2_vals df_sigungu [Value.str "전국"] target_var "시군구"
              else data0
  if data.isEmpty || data.all (fun _ => false) then
    let others := (uniqueVals df_sido "시도").filter (fun w => w ≠ Value.str "전국")
    let all_sido_data := process_data_v2_vals df_sido others target_var "시도"
    if all_sido_data.isEmpty then none
    else some (groupby_year_mean all_sido_data)
  else some (data.map (fun r => (r.year, r.value)))

/-- Modelled from the spec: the §4.1 canonical base-name rule — strip one
occurrence of "underscore, then 2–4 digits, anchored at the end of the
string", then trim whitespace.  (Present in the spec only; the code's
`get_base_name` above is the unanchored global substitution.)  An end-anchored
match exists iff the trailing digit run has length 2–4 and is immediately
preceded by an underscore. -/
def baseName_specRule (s : String) : String :=
  let r := s.data.reverse
  let rds := r.takeWhile Char.isDigit
  if 2 ≤ rds.length ∧ rds.length ≤ 4 ∧ (r.drop rds.length).head? = some '_' then
    String.mk (trimChars ((r.drop (rds.length + 1)).reverse))
  else
    String.mk (trimChars s.data)

/-! ## Example tables (used by concrete theorems and witnesses) -/

/-- The spec's §8.4 extractor-completeness table: columns `ind_20`, `ind_21`,
one row `{region: "A", ind_20: 5, ind_21: "x"}`. -/
def exT4 : Table :=
  ⟨["region", "ind_20", "ind_21"],
   [[("region", Value.str "A"), ("ind_20", Value.num 5), ("ind_21", Value.str "x")]]⟩

/-- A one-indicator sido table for the empty-match witness. -/
def exT8 : Table :=
  ⟨["시도", "자살률_2021"], [[("시도", Value.str "전국"), ("자살률_2021", Value.num 1)]]⟩

/-- A table holding a year-suffixed column `ind_20` next to a tokenless
column `ind` with the same base name. -/
def exT10 : Table :=
  ⟨["region", "ind", "ind_20"],
   [[("region", Value.str "A"), ("ind", Value.num 7), ("ind_20", Value.num 5)]]⟩

/-- Sido table where "전국" is null for 2021 but has the non-null value 7 for
2022, while concrete regions A and B hold 10 and 20 for 2021. -/
def dfS : Table :=
  ⟨["시도", "ind_2021", "ind_2022"],
   [[("시도", Value.str "전국"), ("ind_2021", Value.null), ("ind_2022", Value.num 7)],
    [("시도", Value.str "A"), ("ind_2021", Value.num 10), ("ind_2022", Value.null)],
    [("시도", Value.str "B"), ("ind_2021", Value.num 20), ("ind_2022", Value.null)]]⟩

/-- An empty sub-region table. -/
def dfG : Table := ⟨[], []⟩

/-- Sido table where "전국" is null for 2021 and regions A, B hold 10 and 20:
the spec's §8.6 mean-fallback scenario. -/
def dfS2 : Table :=
  ⟨["시도", "ind_2021"],
   [[("시도", Value.str "전국"), ("ind_2021", Value.null)],
    [("시도", Value.str "A"), ("ind_2021", Value.num 10)],
    [("시도", Value.str "B"), ("ind_2021", Value.num 20)]]⟩

/-- Sido table with a null row-key: "전국" is all-null, region A holds 10,
and a NaN-keyed row holds 20 for 2021.  Line 151's comprehension keeps the
NaN key (`nan != "전국"` is `True`) and `isin` matches the NaN-keyed row, so
that row participates in the fallback mean: `(10 + 20) / 2 = 15`. -/
def dfS3 : Table :=
  ⟨["시도", "ind_2021"],
   [[("시도", Value.str "전국"), ("ind_2021", Value.null)],
    [("시도", Value.str "A"), ("ind_2021", Value.num 10)],
    [("시도", Value.null), ("ind_2021", Value.num 20)]]⟩

/-- Sub-region table that does hold a "전국" row: value 3 for 2020. -/
def dfG2 : Table :=
  ⟨["시군구", "ind_2020"],
   [[("시군구", Value.str "전국"), ("ind_2020", Value.num 3)]]⟩

/-! ## Shared lemmas -/

/-- `process_data_v2` returns exactly the parsed records, reordered by the
year sort: the early return for "no matching column" changes nothing, since
with no matching column there are no candidate records either. -/
theorem process_perm_parsed (df : Table) (regions : List String) (v loc : String) :
    (process_data_v2 df regions v loc).Perm (parsedRecords df regions v loc) := by
  unfold process_data_v2
  by_cases h : (df.cols.filter (fun c => get_base_name c == v)).isEmpty = true
  · rw [List.isEmpty_iff] at h
    simp only [h, List.isEmpty_nil, if_true]
    unfold parsedRecords
    simp [h]
  · simp only [if_neg h]
    exact List.perm_insertionSort _ _

/-- Every record of the melt survives `dropna` only with a successfully
parsed year for its originating column. -/
theorem mem_parsedRecords_extract_year {df : Table} {regions : List String}
    {v loc : String} {r : SRec} (h : r ∈ parsedRecords df regions v loc) :
    extract_year r.item = some r.year := by
  unfold parsedRecords at h
  rw [List.mem_filterMap] at h
  obtain ⟨a, -, hf⟩ := h
  rcases hy : extract_year a.1 with - | y <;> rw [hy] at hf
  · simp at hf
  · rcases hq : to_numeric (cellOf a.2 a.1) with - | q <;> rw [hq] at hf
    · simp at hf
    · simp only [Option.some.injEq] at hf
      subst hf
      exact hy

/-- Membership in `get_unique_vars`: exactly the base names of the columns
containing at least one keyword as a substring. -/
theorem mem_get_unique_vars (keywords : List String) (df : Table) (s : String) :
    s ∈ get_unique_vars keywords df ↔
      ∃ c ∈ df.cols, (∃ k ∈ keywords, strContains c k = true) ∧ get_base_name c = s := by
  unfold get_unique_vars
  rw [(List.perm_insertionSort _ _).mem_iff, List.mem_dedup, List.mem_map]
  constructor
  · rintro ⟨c, hc, rfl⟩
    rw [List.mem_filter] at hc
    obtain ⟨hcol, hmatch⟩ := hc
    rw [List.any_eq_true] at hmatch
    exact ⟨c, hcol, hmatch, rfl⟩
  · rintro ⟨c, hcol, hmatch, rfl⟩
    refine ⟨c, ?_, rfl⟩
    rw [List.mem_filter]
    exact ⟨hcol, List.any_eq_true.mpr hmatch⟩

/-! ## Claims -/

/-- C2.  The code's `get_base_name` (line 62) is the unanchored global
substitution `re.sub(r'_(\d{2,4})', '', ·)`: on `"per_100k_2021"` it strips
the interior `_100` as well as the trailing `_2021`, giving `"perk"`,
whereas the claimed rule — strip exactly one end-anchored occurrence, then
trim — gives `"per_100k"`.  The code thus contradicts the claim (and the
spec flags this very behaviour as a known defect). -/
theorem base_name_unanchored_bug :
    get_base_name "per_100k_2021" = "perk" ∧
    baseName_specRule "per_100k_2021" = "per_100k" ∧
    get_base_name "per_100k_2021" ≠ baseName_specRule "per_100k_2021" := by
  refine ⟨by decide, by decide, by decide⟩

/-- C4.  Partial-success drop semantics of the extractor: on the spec's §8.4
table the unparseable `"x"` cell is dropped and the rest of the family is
kept, `extract` yielding exactly `{region A, year 2020, value 5}` from column
`ind_20`; and in general the output of `process_data_v2` is, up to the year
sort's reordering, exactly the list of candidate records whose year token
parsed and whose value coerced (`parsedRecords`) — so dropping a bad record
never disturbs the remaining records. -/
theorem extractor_partial_success :
    process_data_v2 exT4 ["A"] "ind" "region" =
      [⟨"A", "ind_20", 2020, 5⟩] ∧
    ∀ (df : Table) (regions : List String) (v loc : String),
      (process_data_v2 df regions v loc).Perm (parsedRecords df regions v loc) :=
  ⟨by decide, process_perm_parsed⟩

/-- C8.  Empty-match contract: when no column's base name equals the
requested indicator, `process_data_v2` returns the empty frame (line 70) —
and, being a total function, never raises. -/
theorem empty_match_contract (df : Table) (regions : List String) (v loc : String)
    (h : ∀ c ∈ df.cols, get_base_name c ≠ v) :
    process_data_v2 df regions v loc = [] := by
  unfold process_data_v2
  have hnil : df.cols.filter (fun c => get_base_name c == v) = [] := by
    rw [List.filter_eq_nil_iff]
    intro c hc
    simpa using h c hc
  simp [hnil]

/-- Witness for C8 at a concrete table and indicator. -/
theorem empty_match_contract_witness :
    process_data_v2 exT8 ["전국"] "없는지표" "시도" = [] :=
  empty_match_contract exT8 ["전국"] "없는지표" "시도" (by decide)

/-- C10.  A selected column whose name holds no `_`-plus-2-to-4-digits token
contributes no record: every surviving record's `item` column parsed to a
year, so a tokenless column (where `extract_year` is `None`) is filtered out
entirely by `dropna`. -/
theorem tokenless_column_contributes_nothing (df : Table) (regions : List String)
    (v loc c : String) (h : firstToken c.data = none) :
    ∀ r ∈ process_data_v2 df regions v loc, r.item ≠ c := by
  intro r hr heq
  have hr' : r ∈ parsedRecords df regions v loc :=
    (process_perm_parsed df regions v loc).mem_iff.mp hr
  have hy := mem_parsedRecords_extract_year hr'
  rw [heq] at hy
  unfold extract_year at hy
  rw [h] at hy
  simp at hy

/-- Witness for C10: on `exT10` the tokenless column `ind` (base name `ind`,
selected for indicator `ind`) yields no record, even for the row that holds
the numeric value 7 there. -/
theorem tokenless_column_witness :
    (⟨"A", "ind", 2020, 7⟩ : SRec) ∉ process_data_v2 exT10 ["A"] "ind" "region" :=
  fun hmem =>
    tokenless_column_contributes_nothing exT10 ["A"] "ind" "region" "ind"
      (by decide) _ hmem rfl

/-- C7.  `get_unique_vars` contract: its result is sorted (code-point
lexicographically, Python `sorted`), duplicate-free (`set`), contains exactly
the base names of the columns containing at least one keyword as a
case-sensitive substring, is empty iff no column matches, and two calls on
identical inputs agree. -/
theorem unique_indicators_contract (keywords : List String) (df : Table) :
    List.Sorted (· ≤ ·) (get_unique_vars keywords df) ∧
    (get_unique_vars keywords df).Nodup ∧
    (∀ s, s ∈ get_unique_vars keywords df ↔
      ∃ c ∈ df.cols, (∃ k ∈ keywords, strContains c k = true) ∧ get_base_name c = s) ∧
    (get_unique_vars keywords df = [] ↔
      ∀ c ∈ df.cols, ∀ k ∈ keywords, strContains c k = false) ∧
    get_unique_vars keywords df = get_unique_vars keywords df := by
  refine ⟨List.sorted_insertionSort _ _,
    (List.perm_insertionSort _ _).nodup_iff.mpr (List.nodup_dedup _),
    mem_get_unique_vars keywords df, ?_, rfl⟩
  rw [List.eq_nil_iff_forall_not_mem]
  constructor
  · intro h c hc k hk
    by_contra hk'
    exact h (get_base_name c)
      ((mem_get_unique_vars keywords df _).mpr
        ⟨c, hc, ⟨k, hk, by revert hk'; cases strContains c k <;> simp⟩, rfl⟩)
  · intro h s hs
    obtain ⟨c, hc, ⟨k, hk, hck⟩, -⟩ := (mem_get_unique_vars keywords df s).mp hs
    rw [h c hc k hk] at hck
    exact Bool.false_ne_true hck

/-- C1 counterexample.  With `dfS` (nationwide null for 2021 with value 7 for
2022; regions A and B holding 10 and 20 for 2021), the per-year contract
demands the 2021 mean 15 in the resolved series, but the code's fallback is
per-series: the nonempty nationwide series `[(2022, 7)]` is returned as-is
and 2021 is absent — even though non-aggregate records for 2021 exist. -/
theorem aggregate_fallback_cex :
    resolve_aggregate dfS dfG "ind" = some [(2022, 7)] ∧
    process_data_v2 dfS ["A", "B"] "ind" "시도" =
      [⟨"A", "ind_2021", 2021, 10⟩, ⟨"B", "ind_2021", 2021, 20⟩] ∧
    ((resolve_aggregate dfS dfG "ind").getD []).contains (2021, 15) = false := by
  refine ⟨by decide, by decide, by decide⟩

/-- C3 counterexample.  On the 2-digit token `"50"` the code's else branch
returns the token's literal value: `int("50") = 50`, not the claimed 1950
(the code never prefixes `"19"`). -/
theorem year_expansion_cex :
    extract_year "ind_50" = some 50 ∧ (50 : ℕ) ≠ 1950 := by
  refine ⟨by decide, by decide⟩

/-- C6 counterexample.  `get_base_name` is not idempotent on every string:
the greedy `{2,4}` quantifier consumes only four of the six digits of
`"__123456"`, so one application leaves `"_56"`, and a second application
strips that freshly created match down to `""`. -/
theorem base_name_not_idempotent :
    get_base_name "__123456" = "_56" ∧
    get_base_name (get_base_name "__123456") = "" ∧
    get_base_name (get_base_name "__123456") ≠ get_base_name "__123456" := by
  refine ⟨by decide, by decide, by decide⟩

/-! ## Year-expansion (C3): supporting lemmas and amended theorem -/

theorem takeWhile_append_nil {p : Char → Bool} {ys : List Char}
    (hy : ys.takeWhile p = []) :
    ∀ xs : List Char, (xs ++ ys).takeWhile p = xs.takeWhile p := by
  intro xs
  induction xs with
  | nil => simpa using hy
  | cons c xs ih =>
    rw [List.cons_append, List.takeWhile_cons, List.takeWhile_cons]
    cases p c <;> simp [ih]

/-- If the scan finds no match inside `xs` and `ys` starts with a non-digit
(so no digit run of `xs` extends into `ys`), the leftmost match of `xs ++ ys`
is the leftmost match of `ys`. -/
theorem firstToken_append {xs ys : List Char} (h : firstToken xs = none)
    (hy : ys.takeWhile Char.isDigit = []) :
    firstToken (xs ++ ys) = firstToken ys := by
  induction xs with
  | nil => rfl
  | cons c xs ih =>
    rw [List.cons_append]
    show (if c = '_' then _ else _) = _
    rw [show firstToken (c :: xs) = if c = '_' then
          (if 2 ≤ (xs.takeWhile Char.isDigit).length then
            some ((xs.takeWhile Char.isDigit).take 4) else firstToken xs)
          else firstToken xs from rfl] at h
    by_cases hc : c = '_' <;> simp only [hc, if_true, if_false] at h ⊢
    · rw [takeWhile_append_nil hy]
      by_cases hds : 2 ≤ (xs.takeWhile Char.isDigit).length
      · rw [if_pos hds] at h
        exact absurd h (by simp)
      · rw [if_neg hds] at h ⊢
        exact ih h
    · exact ih h

theorem digitsVal_pair (c₁ c₂ : Char) :
    digitsVal [c₁, c₂] = digitVal c₁ * 10 + digitVal c₂ := by
  simp [digitsVal, List.foldl]

theorem digitsVal_quad (c₁ c₂ c₃ c₄ : Char) :
    digitsVal [c₁, c₂, c₃, c₄] =
      ((digitVal c₁ * 10 + digitVal c₂) * 10 + digitVal c₃) * 10 + digitVal c₄ := by
  simp [digitsVal, List.foldl]

/-- C3 amended.  Year-token expansion as the code implements it: a 2-digit
token of value < 50 parses to 2000 plus its value, while any other token —
including a 2-digit token ≥ 50 — parses to its literal integer value, so
`"49"` parses to 2049, `"00"` to 2000, but `"50"` parses to 50 (not 1950),
and 4-digit tokens pass through unchanged. -/
theorem year_expansion_amended (b : String) (hb : firstToken b.data = none)
    (c₁ c₂ c₃ c₄ : Char) (h1 : c₁.isDigit = true) (h2 : c₂.isDigit = true)
    (h3 : c₃.isDigit = true) (h4 : c₄.isDigit = true) :
    (extract_year (String.mk (b.data ++ '_' :: [c₁, c₂])) =
      some (if digitVal c₁ * 10 + digitVal c₂ < 50
            then 2000 + (digitVal c₁ * 10 + digitVal c₂)
            else digitVal c₁ * 10 + digitVal c₂)) ∧
    (extract_year (String.mk (b.data ++ '_' :: [c₁, c₂, c₃, c₄])) =
      some (((digitVal c₁ * 10 + digitVal c₂) * 10 + digitVal c₃) * 10 + digitVal c₄)) ∧
    extract_year "ind_49" = some 2049 ∧
    extract_year "ind_00" = some 2000 ∧
    extract_year "ind_50" = some 50 ∧
    extract_year "ind_1950" = some 1950 ∧
    extract_year "ind_2021" = some 2021 := by
  have hw : ∀ t : List Char, (('_' :: t).takeWhile Char.isDigit) = [] := by
    intro t
    rw [List.takeWhile_cons]
    simp
  refine ⟨?_, ?_, by decide, by decide, by decide, by decide, by decide⟩
  · show (firstToken (b.data ++ '_' :: [c₁, c₂])).map yearOfToken = _
    rw [firstToken_append hb (hw _)]
    have htok : firstToken ('_' :: [c₁, c₂]) = some [c₁, c₂] := by
      show (if ('_' : Char) = '_' then _ else _) = _
      simp [List.takeWhile_cons, h1, h2]
    rw [htok]
    simp only [Option.map_some']
    unfold yearOfToken
    rw [digitsVal_pair]
    simp
  · show (firstToken (b.data ++ '_' :: [c₁, c₂, c₃, c₄])).map yearOfToken = _
    rw [firstToken_append hb (hw _)]
    have htok : firstToken ('_' :: [c₁, c₂, c₃, c₄]) = some [c₁, c₂, c₃, c₄] := by
      show (if ('_' : Char) = '_' then _ else _) = _
      simp [List.takeWhile_cons, h1, h2, h3, h4]
    rw [htok]
    simp only [Option.map_some']
    unfold yearOfToken
    rw [digitsVal_quad]
    simp

/-- Witness for C3's amended theorem at `"ind" ++ "_49"` and
`"ind" ++ "_1950"`. -/
theorem year_expansion_amended_witness :
    (extract_year (String.mk ("ind".data ++ '_' :: ['4', '9'])) =
      some (if digitVal '4' * 10 + digitVal '9' < 50
            then 2000 + (digitVal '4' * 10 + digitVal '9')
            else digitVal '4' * 10 + digitVal '9')) ∧
    (extract_year (String.mk ("ind".data ++ '_' :: ['1', '9', '5', '0'])) =
      some (((digitVal '1' * 10 + digitVal '9') * 10 + digitVal '5') * 10 + digitVal '0')) :=
  ⟨(year_expansion_amended "ind" (by decide) '4' '9' '5' '0'
      (by decide) (by decide) (by decide) (by decide)).1,
   (year_expansion_amended "ind" (by decide) '1' '9' '5' '0'
      (by decide) (by decide) (by decide) (by decide)).2.1⟩

/-! ## Aggregate fallback (C1): supporting lemma and amended theorem -/

/-- Membership in `groupby('year').mean()`: exactly one pair per year that
occurs in the records, carrying the arithmetic mean of that year's values. -/
theorem mem_groupby_year_mean (recs : List VRec) (y : ℕ) (q : ℚ) :
    (y, q) ∈ groupby_year_mean recs ↔
      (∃ r ∈ recs, r.year = y) ∧
      q = ((recs.filter (fun r => r.year = y)).map (fun r => r.value)).sum /
            ((((recs.filter (fun r => r.year = y)).map (fun r => r.value)).length : ℕ) : ℚ) := by
  unfold groupby_year_mean
  rw [List.mem_map]
  constructor
  · rintro ⟨y', hy', heq⟩
    injection heq with hy hq
    subst hy
    subst hq
    rw [(List.perm_insertionSort _ _).mem_iff, List.mem_dedup, List.mem_map] at hy'
    obtain ⟨r, hr, rfl⟩ := hy'
    exact ⟨⟨r, hr, rfl⟩, rfl⟩
  · rintro ⟨⟨r, hr, hry⟩, rfl⟩
    subst hry
    refine ⟨r.year, ?_, rfl⟩
    rw [(List.perm_insertionSort _ _).mem_iff, List.mem_dedup, List.mem_map]
    exact ⟨r, hr, rfl⟩

/-- On `dfS2` the nationwide row is all-null, so the fallback replaces the
series by the per-year sido mean: `(10 + 20) / 2 = 15` for 2021. -/
theorem resolve_dfS2_concrete :
    resolve_aggregate dfS2 dfG "ind" = some [(2021, 15)] := by
  have h0 : resolve_aggregate dfS2 dfG "ind" =
      some (groupby_year_mean (process_data_v2_vals dfS2
        ((uniqueVals dfS2 "시도").filter (fun w => w ≠ Value.str "전국"))
        "ind" "시도")) := rfl
  have h1 : process_data_v2_vals dfS2
      ((uniqueVals dfS2 "시도").filter (fun w => w ≠ Value.str "전국")) "ind" "시도" =
      [⟨Value.str "A", "ind_2021", 2021, 10⟩, ⟨Value.str "B", "ind_2021", 2021, 20⟩] := by
    decide
  rw [h0, h1]
  unfold groupby_year_mean
  have h2 : List.insertionSort (α := ℕ) (· ≤ ·)
      ((([⟨Value.str "A", "ind_2021", 2021, 10⟩,
          ⟨Value.str "B", "ind_2021", 2021, 20⟩] : List VRec).map
        (fun r => r.year)).dedup) = [2021] := by decide
  rw [h2]
  simp only [List.map, List.filter, Option.some.injEq]
  norm_num

/-- On `dfS3` the NaN-keyed row's value 20 enters the fallback mean next to
region A's 10 (pandas `unique()` keeps NaN, `nan != "전국"` is `True`, and
`isin` matches the NaN-keyed row): the resolved 2021 value is 15. -/
theorem resolve_dfS3_concrete :
    resolve_aggregate dfS3 dfG "ind" = some [(2021, 15)] := by
  have h0 : resolve_aggregate dfS3 dfG "ind" =
      some (groupby_year_mean (process_data_v2_vals dfS3
        ((uniqueVals dfS3 "시도").filter (fun w => w ≠ Value.str "전국"))
        "ind" "시도")) := rfl
  have h1 : process_data_v2_vals dfS3
      ((uniqueVals dfS3 "시도").filter (fun w => w ≠ Value.str "전국")) "ind" "시도" =
      [⟨Value.str "A", "ind_2021", 2021, 10⟩, ⟨Value.null, "ind_2021", 2021, 20⟩] := by
    decide
  rw [h0, h1]
  unfold groupby_year_mean
  have h2 : List.insertionSort (α := ℕ) (· ≤ ·)
      ((([⟨Value.str "A", "ind_2021", 2021, 10⟩,
          ⟨Value.null, "ind_2021", 2021, 20⟩] : List VRec).map
        (fun r => r.year)).dedup) = [2021] := by decide
  rw [h2]
  simp only [List.map, List.filter, Option.some.injEq]
  norm_num

/-- C1 amended.  The fallback is per-series, not per-year: (i) whenever the
nationwide series extracted from the sido table is nonempty — i.e. "전국"
has at least one non-null value for *some* year — it is returned unchanged,
so years where it has no value are omitted rather than mean-filled; (ii) when
the sido lookup is empty but the sigungu-table lookup of "전국" is nonempty,
that series is likewise returned unchanged; (iii) only when the nationwide
series is empty from both tables is the entire series replaced by the
per-year means over all sido rows whose key is any value other than the
string "전국" — null-keyed rows included, since pandas `unique()` keeps NaN,
`nan != "전국"` is `True`, and `isin` matches NaN-keyed rows — a year being
present iff some such record exists for it, with the arithmetic mean as its
value, and the series skipped entirely (`none`) if there are no records at
all; (iv) the spec's §8.6 scenarios hold in this per-series form: an
all-null nationwide row with regions at 10 and 20 for 2021 resolves to the
mean 15 (also when one of the two contributing rows is null-keyed), and a
nationwide value 7 is returned as-is. -/
theorem aggregate_fallback_amended :
    (∀ (dfs dfg : Table) (v : String),
      process_data_v2_vals dfs [Value.str "전국"] v "시도" ≠ [] →
      resolve_aggregate dfs dfg v =
        some ((process_data_v2_vals dfs [Value.str "전국"] v "시도").map
          (fun r => (r.year, r.value)))) ∧
    (∀ (dfs dfg : Table) (v : String),
      process_data_v2_vals dfs [Value.str "전국"] v "시도" = [] →
      process_data_v2_vals dfg [Value.str "전국"] v "시군구" ≠ [] →
      resolve_aggregate dfs dfg v =
        some ((process_data_v2_vals dfg [Value.str "전국"] v "시군구").map
          (fun r => (r.year, r.value)))) ∧
    (∀ (dfs dfg : Table) (v : String),
      process_data_v2_vals dfs [Value.str "전국"] v "시도" = [] →
      process_data_v2_vals dfg [Value.str "전국"] v "시군구" = [] →
      (resolve_aggregate dfs dfg v = none ↔
        process_data_v2_vals dfs
          ((uniqueVals dfs "시도").filter (fun w => w ≠ Value.str "전국")) v "시도"
          = []) ∧
      (∀ (l : List (ℕ × ℚ)), resolve_aggregate dfs dfg v = some l →
        ∀ (y : ℕ) (q : ℚ),
          ((y, q) ∈ l ↔
            (∃ r ∈ process_data_v2_vals dfs
                ((uniqueVals dfs "시도").filter (fun w => w ≠ Value.str "전국")) v "시도",
              r.year = y) ∧
            q = (((process_data_v2_vals dfs
                    ((uniqueVals dfs "시도").filter (fun w => w ≠ Value.str "전국"))
                    v "시도").filter
                      (fun r => r.year = y)).map (fun r => r.value)).sum /
                  (((((process_data_v2_vals dfs
                    ((uniqueVals dfs "시도").filter (fun w => w ≠ Value.str "전국"))
                    v "시도").filter
                      (fun r => r.year = y)).map (fun r => r.value)).length : ℕ) : ℚ)))) ∧
    resolve_aggregate dfS2 dfG "ind" = some [(2021, 15)] ∧
    resolve_aggregate dfS dfG "ind" = some [(2022, 7)] ∧
    resolve_aggregate dfS3 dfG "ind" = some [(2021, 15)] := by
  refine ⟨?_, ?_, ?_, resolve_dfS2_concrete, by decide, resolve_dfS3_concrete⟩
  · intro dfs dfg v h
    unfold resolve_aggregate
    cases hd : process_data_v2_vals dfs [Value.str "전국"] v "시도" with
    | nil => exact absurd hd h
    | cons a t => simp
  · intro dfs dfg v h1 h2
    unfold resolve_aggregate
    rw [h1]
    simp only [List.isEmpty_nil, if_true]
    cases hd : process_data_v2_vals dfg [Value.str "전국"] v "시군구" with
    | nil => exact absurd hd h2
    | cons a t => simp
  · intro dfs dfg v h1 h2
    unfold resolve_aggregate
    rw [h1, h2]
    simp only [List.isEmpty_nil, if_true, Bool.true_or]
    cases hd : process_data_v2_vals dfs
        ((uniqueVals dfs "시도").filter (fun w => w ≠ Value.str "전국")) v "시도" with
    | nil => simp
    | cons a t =>
      simp only [List.isEmpty_cons, if_false, Bool.false_eq_true, reduceCtorEq]
      constructor
      · simp
      · intro l hl y q
        injection hl with hl
        subst hl
        rw [← hd, mem_groupby_year_mean]

/-- Witness for C1's amended theorem, exercising branches (i) and (ii):
`dfS`'s sido nationwide series is nonempty (7 for 2022) and is returned
unchanged, and with an empty sido table the nonempty sigungu nationwide
series of `dfG2` (3 for 2020) is returned unchanged. -/
theorem aggregate_fallback_amended_witness :
    (resolve_aggregate dfS dfG "ind" =
      some ((process_data_v2_vals dfS [Value.str "전국"] "ind" "시도").map
        (fun r => (r.year, r.value)))) ∧
    (resolve_aggregate dfG dfG2 "ind" =
      some ((process_data_v2_vals dfG2 [Value.str "전국"] "ind" "시군구").map
        (fun r => (r.year, r.value)))) :=
  ⟨aggregate_fallback_amended.1 dfS dfG "ind" (by decide),
   aggregate_fallback_amended.2.1 dfG dfG2 "ind" (by decide) (by decide)⟩

/-! ## Leftmost-match characterization of the year token (C9) -/

/-- The pattern `_(\d{2,4})` matches at position `i` of `l`: an underscore
there, immediately followed by at least two digits. -/
def matchAt (l : List Char) (i : ℕ) : Prop :=
  (l.drop i).head? = some '_' ∧ 2 ≤ ((l.drop (i + 1)).takeWhile Char.isDigit).length

/-- The captured group of a match at position `i`: the digit run following
the underscore, truncated to 4 by the greedy `{2,4}` quantifier. -/
def tokenAt (l : List Char) (i : ℕ) : List Char :=
  ((l.drop (i + 1)).takeWhile Char.isDigit).take 4

theorem matchAt_nil (i : ℕ) : ¬ matchAt [] i := by
  simp [matchAt]

theorem matchAt_cons_zero (c : Char) (rest : List Char) :
    matchAt (c :: rest) 0 ↔ c = '_' ∧ 2 ≤ (rest.takeWhile Char.isDigit).length := by
  simp [matchAt]

theorem matchAt_cons_succ (c : Char) (rest : List Char) (i : ℕ) :
    matchAt (c :: rest) (i + 1) ↔ matchAt rest i := by
  simp [matchAt, List.drop_succ_cons]

theorem tokenAt_cons_succ (c : Char) (rest : List Char) (i : ℕ) :
    tokenAt (c :: rest) (i + 1) = tokenAt rest i := by
  simp [tokenAt, List.drop_succ_cons]

theorem exists_leftmost_shift (c : Char) (rest : List Char) (t : List Char)
    (h0 : ¬ matchAt (c :: rest) 0) :
    (∃ i, matchAt (c :: rest) i ∧ (∀ j, j < i → ¬ matchAt (c :: rest) j) ∧
      t = tokenAt (c :: rest) i) ↔
    (∃ i, matchAt rest i ∧ (∀ j, j < i → ¬ matchAt rest j) ∧ t = tokenAt rest i) := by
  constructor
  · rintro ⟨i, hm, hmin, ht⟩
    cases i with
    | zero => exact absurd hm h0
    | succ i =>
      refine ⟨i, (matchAt_cons_succ c rest i).mp hm, ?_,
        ht.trans (tokenAt_cons_succ c rest i)⟩
      intro j hj hmj
      exact hmin (j + 1) (Nat.succ_lt_succ hj) ((matchAt_cons_succ c rest j).mpr hmj)
  · rintro ⟨i, hm, hmin, ht⟩
    refine ⟨i + 1, (matchAt_cons_succ c rest i).mpr hm, ?_,
      by rw [tokenAt_cons_succ]; exact ht⟩
    intro j hj
    cases j with
    | zero => exact h0
    | succ j =>
      intro hmj
      exact hmin j (Nat.lt_of_succ_lt_succ hj) ((matchAt_cons_succ c rest j).mp hmj)

/-- `firstToken` returns exactly the token of the leftmost matching position:
`re.search` semantics. -/
theorem firstToken_eq_some_iff : ∀ (l : List Char) (t : List Char),
    firstToken l = some t ↔
      ∃ i, matchAt l i ∧ (∀ j, j < i → ¬ matchAt l j) ∧ t = tokenAt l i := by
  intro l
  induction l with
  | nil =>
    intro t
    constructor
    · intro h
      exact absurd h (by simp [firstToken])
    · rintro ⟨i, hm, -, -⟩
      exact absurd hm (matchAt_nil i)
  | cons c rest ih =>
    intro t
    have heq : firstToken (c :: rest) =
        if c = '_' then
          (if 2 ≤ (rest.takeWhile Char.isDigit).length then
            some ((rest.takeWhile Char.isDigit).take 4)
          else firstToken rest)
        else firstToken rest := rfl
    rw [heq]
    by_cases hc : c = '_'
    · rw [if_pos hc]
      by_cases hds : 2 ≤ (rest.takeWhile Char.isDigit).length
      · rw [if_pos hds]
        constructor
        · intro h
          injection h with h
          refine ⟨0, (matchAt_cons_zero c rest).mpr ⟨hc, hds⟩,
            fun j hj => absurd hj (Nat.not_lt_zero j), ?_⟩
          rw [← h]
          simp [tokenAt]
        · rintro ⟨i, hm, hmin, ht⟩
          cases i with
          | zero =>
            rw [ht]
            simp [tokenAt]
          | succ i =>
            exact absurd ((matchAt_cons_zero c rest).mpr ⟨hc, hds⟩)
              (hmin 0 (Nat.succ_pos i))
      · rw [if_neg hds]
        have h0 : ¬ matchAt (c :: rest) 0 :=
          fun hm => hds ((matchAt_cons_zero c rest).mp hm).2
        rw [ih t]
        exact (exists_leftmost_shift c rest t h0).symm
    · rw [if_neg hc]
      have h0 : ¬ matchAt (c :: rest) 0 :=
        fun hm => hc ((matchAt_cons_zero c rest).mp hm).1
      rw [ih t]
      exact (exists_leftmost_shift c rest t h0).symm

/-- C9.  The year token of `extract_year` is the captured group of the
leftmost position where `_(\d{2,4})` matches — searched anywhere in the
column name, not only at its end — and a 3-digit token is accepted with its
literal value: `"per_100k_2020"` and the mid-name `"x_100y"` both parse to
year 100 (the interior `_100`, not the trailing `_2020`). -/
theorem year_token_leftmost_anywhere :
    (∀ (s : String) (y : ℕ),
      extract_year s = some y ↔
        ∃ i, matchAt s.data i ∧ (∀ j, j < i → ¬ matchAt s.data j) ∧
          y = yearOfToken (tokenAt s.data i)) ∧
    extract_year "per_100k_2020" = some 100 ∧
    extract_year "x_100y" = some 100 ∧
    yearOfToken ['1', '0', '0'] = 100 := by
  refine ⟨?_, by decide, by decide, by decide⟩
  intro s y
  unfold extract_year
  rw [Option.map_eq_some']
  constructor
  · rintro ⟨t, ht, rfl⟩
    obtain ⟨i, hm, hmin, rfl⟩ := (firstToken_eq_some_iff s.data t).mp ht
    exact ⟨i, hm, hmin, rfl⟩
  · rintro ⟨i, hm, hmin, rfl⟩
    exact ⟨tokenAt s.data i,
      (firstToken_eq_some_iff s.data _).mpr ⟨i, hm, hmin, rfl⟩, rfl⟩

/-! ## Idempotence of `get_base_name` on well-formed names (C6)

`get_base_name` fails to be idempotent only through digit runs longer than
four behind an underscore (the greedy `{2,4}` leaves residue digits that can
recombine into a fresh match).  `okRuns` rules those out; under it one
application leaves no `_`-plus-two-digits occurrence (`noUM`), and a string
with none is a fixed point. -/

/-- Every underscore of the string is followed by at most four consecutive
digits. -/
def okRuns : List Char → Bool
  | [] => true
  | c :: rest =>
    ((if c = '_' then decide ((rest.takeWhile Char.isDigit).length ≤ 4) else true) &&
      okRuns rest)

/-- No underscore of the string is followed by two or more consecutive
digits, i.e. `_(\d{2,4})` does not occur. -/
def noUM : List Char → Bool
  | [] => true
  | c :: rest =>
    ((if c = '_' then decide ((rest.takeWhile Char.isDigit).length ≤ 1) else true) &&
      noUM rest)

theorem okRuns_cons (c : Char) (rest : List Char) :
    okRuns (c :: rest) =
      ((if c = '_' then decide ((rest.takeWhile Char.isDigit).length ≤ 4) else true) &&
        okRuns rest) := rfl

theorem noUM_cons (c : Char) (rest : List Char) :
    noUM (c :: rest) =
      ((if c = '_' then decide ((rest.takeWhile Char.isDigit).length ≤ 1) else true) &&
        noUM rest) := rfl

theorem okRuns_tail {c : Char} {rest : List Char} (h : okRuns (c :: rest) = true) :
    okRuns rest = true := by
  rw [okRuns_cons, Bool.and_eq_true] at h
  exact h.2

theorem okRuns_head {c : Char} {rest : List Char} (h : okRuns (c :: rest) = true)
    (hc : c = '_') : (rest.takeWhile Char.isDigit).length ≤ 4 := by
  rw [okRuns_cons, Bool.and_eq_true] at h
  have h1 := h.1
  rw [if_pos hc] at h1
  exact of_decide_eq_true h1

theorem noUM_tail {c : Char} {rest : List Char} (h : noUM (c :: rest) = true) :
    noUM rest = true := by
  rw [noUM_cons, Bool.and_eq_true] at h
  exact h.2

theorem noUM_head {c : Char} {rest : List Char} (h : noUM (c :: rest) = true)
    (hc : c = '_') : (rest.takeWhile Char.isDigit).length ≤ 1 := by
  rw [noUM_cons, Bool.and_eq_true] at h
  have h1 := h.1
  rw [if_pos hc] at h1
  exact of_decide_eq_true h1

theorem noUM_cons_of {c : Char} {rest : List Char}
    (h1 : c = '_' → (rest.takeWhile Char.isDigit).length ≤ 1)
    (h2 : noUM rest = true) : noUM (c :: rest) = true := by
  rw [noUM_cons, Bool.and_eq_true]
  refine ⟨?_, h2⟩
  by_cases hc : c = '_'
  · rw [if_pos hc]
    exact decide_eq_true (h1 hc)
  · rw [if_neg hc]

theorem okRuns_drop : ∀ (n : ℕ) (l : List Char), okRuns l = true →
    okRuns (l.drop n) = true := by
  intro n
  induction n with
  | zero => intro l h; exact h
  | succ n ih =>
    intro l h
    cases l with
    | nil => exact h
    | cons c rest => exact ih rest (okRuns_tail h)

theorem noUM_drop : ∀ (n : ℕ) (l : List Char), noUM l = true →
    noUM (l.drop n) = true := by
  intro n
  induction n with
  | zero => intro l h; exact h
  | succ n ih =>
    intro l h
    cases l with
    | nil => exact h
    | cons c rest => exact ih rest (noUM_tail h)

theorem noUM_append_right : ∀ (a b : List Char), noUM (a ++ b) = true →
    noUM b = true := by
  intro a
  induction a with
  | nil => intro b h; exact h
  | cons c a ih => intro b h; exact ih b (noUM_tail h)

theorem takeWhile_length_le_append (p : Char → Bool) :
    ∀ (a b : List Char), (a.takeWhile p).length ≤ ((a ++ b).takeWhile p).length := by
  intro a
  induction a with
  | nil => intro b; simp
  | cons c a ih =>
    intro b
    rw [List.cons_append, List.takeWhile_cons, List.takeWhile_cons]
    cases p c
    · simp
    · simpa using ih b

theorem noUM_append_left : ∀ (a b : List Char), noUM (a ++ b) = true →
    noUM a = true := by
  intro a
  induction a with
  | nil => intro b h; rfl
  | cons c a ih =>
    intro b h
    rw [List.cons_append] at h
    refine noUM_cons_of (fun hc => ?_) (ih b (noUM_tail h))
    exact le_trans (takeWhile_length_le_append Char.isDigit a b) (noUM_head h hc)

theorem dropWhile_eq_drop (p : Char → Bool) :
    ∀ l : List Char, l.dropWhile p = l.drop ((l.takeWhile p).length) := by
  intro l
  induction l with
  | nil => rfl
  | cons c l ih =>
    rw [List.dropWhile_cons, List.takeWhile_cons]
    cases hp : p c
    · simp
    · simpa using ih

theorem head?_dropWhile_not (p : Char → Bool) :
    ∀ (l : List Char) (c : Char), (l.dropWhile p).head? = some c → p c = false := by
  intro l
  induction l with
  | nil => intro c h; exact absurd h (by simp)
  | cons a l ih =>
    intro c h
    rw [List.dropWhile_cons] at h
    by_cases hp : p a
    · rw [if_pos hp] at h
      exact ih c h
    · rw [if_neg hp] at h
      rw [List.head?_cons] at h
      injection h with h
      subst h
      exact Bool.not_eq_true _ ▸ (by simpa using hp)

/-- Heads that fail the predicate (empty list allowed). -/
def headFails (p : Char → Bool) (l : List Char) : Prop :=
  ∀ c, l.head? = some c → p c = false

theorem headFails_dropWhile (p : Char → Bool) (l : List Char) :
    headFails p (l.dropWhile p) :=
  fun c h => head?_dropWhile_not p l c h

theorem headFails_of_takeWhile_nil {p : Char → Bool} {l : List Char}
    (h : l.takeWhile p = []) : headFails p l := by
  intro c hc
  cases l with
  | nil => exact absurd hc (by simp)
  | cons a l =>
    rw [List.head?_cons] at hc
    injection hc with hc
    rw [← hc]
    rw [List.takeWhile_cons] at h
    by_cases hp : p a
    · rw [if_pos hp] at h
      exact absurd h (by simp)
    · simpa using hp

theorem takeWhile_nil_of_headFails {p : Char → Bool} {l : List Char}
    (h : headFails p l) : l.takeWhile p = [] := by
  cases l with
  | nil => rfl
  | cons a l =>
    rw [List.takeWhile_cons]
    rw [h a (by simp)]
    simp

theorem dropWhile_dropWhile (p : Char → Bool) (l : List Char) :
    (l.dropWhile p).dropWhile p = l.dropWhile p := by
  cases h : l.dropWhile p with
  | nil => rfl
  | cons c t =>
    have hc : p c = false := head?_dropWhile_not p l c (by rw [h]; simp)
    rw [List.dropWhile_cons, hc]
    simp

/-- One `subYears` pass preserves a non-digit head (given bounded runs): the
scan either keeps the head or replaces it by the first character after a
fully consumed digit run, which is again a non-digit. -/
theorem subYears_headFails : ∀ (n : ℕ) (l : List Char), l.length ≤ n →
    okRuns l = true → headFails Char.isDigit l →
    headFails Char.isDigit (subYears l) := by
  intro n
  induction n with
  | zero =>
    intro l hl _ h
    have : l = [] := List.eq_nil_of_length_eq_zero (Nat.le_zero.mp hl)
    subst this
    exact h
  | succ n ih =>
    intro l hl hok hnd
    cases l with
    | nil => exact hnd
    | cons c rest =>
      rw [List.length_cons, Nat.add_le_add_iff_right] at hl
      rw [subYears_cons]
      by_cases hc : c = '_'
      · rw [if_pos hc]
        by_cases hds : 2 ≤ (rest.takeWhile Char.isDigit).length
        · rw [if_pos hds]
          have h4 : (rest.takeWhile Char.isDigit).length ≤ 4 := okRuns_head hok hc
          rw [Nat.min_eq_left h4, ← dropWhile_eq_drop]
          refine ih _ ?_ ?_ (headFails_dropWhile Char.isDigit rest)
          · exact le_trans (by rw [dropWhile_eq_drop]; simp [List.length_drop]) hl
          · rw [dropWhile_eq_drop]
            exact okRuns_drop _ _ (okRuns_tail hok)
        · rw [if_neg hds]
          intro d hd
          rw [List.head?_cons] at hd
          injection hd with hd
          subst hd
          rw [hc]
          decide
      · rw [if_neg hc]
        intro d hd
        rw [List.head?_cons] at hd
        injection hd with hd
        rw [← hd]
        exact hnd c (by simp)

/-- Under bounded digit runs, one `subYears` pass removes every occurrence
of the pattern: its output contains no underscore followed by two digits. -/
theorem subYears_noUM : ∀ (n : ℕ) (l : List Char), l.length ≤ n →
    okRuns l = true → noUM (subYears l) = true := by
  intro n
  induction n with
  | zero =>
    intro l hl _
    have : l = [] := List.eq_nil_of_length_eq_zero (Nat.le_zero.mp hl)
    subst this
    rfl
  | succ n ih =>
    intro l hl hok
    cases l with
    | nil => rfl
    | cons c rest =>
      rw [List.length_cons, Nat.add_le_add_iff_right] at hl
      rw [subYears_cons]
      by_cases hc : c = '_'
      · rw [if_pos hc]
        by_cases hds : 2 ≤ (rest.takeWhile Char.isDigit).length
        · rw [if_pos hds]
          have h4 : (rest.takeWhile Char.isDigit).length ≤ 4 := okRuns_head hok hc
          rw [Nat.min_eq_left h4, ← dropWhile_eq_drop]
          refine ih _ ?_ ?_
          · exact le_trans (by rw [dropWhile_eq_drop]; simp [List.length_drop]) hl
          · rw [dropWhile_eq_drop]
            exact okRuns_drop _ _ (okRuns_tail hok)
        · rw [if_neg hds]
          refine noUM_cons_of (fun _ => ?_) (ih rest hl (okRuns_tail hok))
          -- the digit run after the kept underscore has length ≤ 1 in the output
          rcases htw : rest.takeWhile Char.isDigit with - | ⟨d, ds⟩
          · -- no digit follows: `subYears rest` keeps a non-digit head
            rw [takeWhile_nil_of_headFails
              (subYears_headFails n rest hl (okRuns_tail hok)
                (headFails_of_takeWhile_nil htw))]
            simp
          · -- exactly one digit follows: `rest = d :: rest₂` with non-digit after
            have hds1 : (rest.takeWhile Char.isDigit).length ≤ 1 := by
              by_contra hgt
              exact hds (by omega)
            rw [htw] at hds1
            have hds0 : ds = [] := by
              rw [List.length_cons] at hds1
              exact List.eq_nil_of_length_eq_zero (by omega)
            subst hds0
            cases rest with
            | nil => exact absurd htw (by simp)
            | cons r rest₂ =>
              rw [List.length_cons] at hl
              rw [List.takeWhile_cons] at htw
              by_cases hr : Char.isDigit r
              · rw [if_pos hr] at htw
                injection htw with hrd htw₂
                subst hrd
                have hr' : r ≠ '_' := by
                  intro h
                  rw [h] at hr
                  exact absurd hr (by decide)
                rw [subYears_cons, if_neg hr']
                rw [List.takeWhile_cons, if_pos hr, List.length_cons]
                have : (subYears rest₂).takeWhile Char.isDigit = [] := by
                  refine takeWhile_nil_of_headFails
                    (subYears_headFails n rest₂ (by omega) ?_ ?_)
                  · exact okRuns_tail (okRuns_tail hok)
                  · exact headFails_of_takeWhile_nil htw₂
                rw [this]
                simp
              · rw [if_neg hr] at htw
                exact absurd htw (by simp)
      · rw [if_neg hc]
        exact noUM_cons_of (fun h => absurd h hc) (ih rest hl (okRuns_tail hok))

/-- A string without the pattern is a fixed point of the substitution. -/
theorem noUM_subYears_id : ∀ l : List Char, noUM l = true → subYears l = l := by
  intro l
  induction l with
  | nil => exact fun _ => rfl
  | cons c rest ih =>
    intro h
    rw [subYears_cons]
    by_cases hc : c = '_'
    · rw [if_pos hc]
      have : ¬ 2 ≤ (rest.takeWhile Char.isDigit).length := by
        have := noUM_head h hc
        omega
      rw [if_neg this, ih (noUM_tail h)]
    · rw [if_neg hc, ih (noUM_tail h)]

/-- `trimChars` only removes characters from the two ends, so it cannot
create a pattern occurrence. -/
theorem noUM_trimChars {l : List Char} (h : noUM l = true) :
    noUM (trimChars l) = true := by
  unfold trimChars
  have hm : noUM (l.dropWhile Char.isWhitespace) = true := by
    rw [dropWhile_eq_drop]
    exact noUM_drop _ _ h
  set m := l.dropWhile Char.isWhitespace with hmdef
  set k := ((m.reverse.takeWhile Char.isWhitespace).length) with hkdef
  have hsplit : (m.reverse.dropWhile Char.isWhitespace).reverse ++
      (m.reverse.take k).reverse = m := by
    rw [dropWhile_eq_drop, ← hkdef, ← List.reverse_append, List.take_append_drop,
      List.reverse_reverse]
  exact noUM_append_left _ _ (by rw [hsplit]; exact hm)

theorem trimChars_idem (l : List Char) : trimChars (trimChars l) = trimChars l := by
  set a := l.dropWhile Char.isWhitespace with hadef
  set b := (a.reverse.dropWhile Char.isWhitespace).reverse with hbdef
  have htriml : trimChars l = b := rfl
  have hbrev : b.reverse = a.reverse.dropWhile Char.isWhitespace := by
    rw [hbdef, List.reverse_reverse]
  -- b is a prefix of a, and a's head fails the whitespace test
  have hk : b ++ (a.reverse.take ((a.reverse.takeWhile Char.isWhitespace).length)).reverse
      = a := by
    rw [hbdef, dropWhile_eq_drop, ← List.reverse_append, List.take_append_drop,
      List.reverse_reverse]
  have hdb : b.dropWhile Char.isWhitespace = b := by
    cases hb : b with
    | nil => rfl
    | cons x b' =>
      have hx : Char.isWhitespace x = false := by
        refine head?_dropWhile_not Char.isWhitespace l x ?_
        rw [← hadef, ← hk, hb]
        simp
      rw [List.dropWhile_cons, hx]
      simp
  have hdbr : b.reverse.dropWhile Char.isWhitespace = b.reverse := by
    rw [hbrev]
    exact dropWhile_dropWhile Char.isWhitespace a.reverse
  rw [htriml]
  show ((b.dropWhile Char.isWhitespace).reverse.dropWhile Char.isWhitespace).reverse = b
  rw [hdb, hdbr, List.reverse_reverse]

/-- C6 amended.  `get_base_name` is idempotent on every column name in which
no underscore is followed by more than four consecutive digits (every real
column name; the failure needs a ≥5-digit run, whose residue digits can form
a fresh match — see the counterexample): one substitution pass then leaves no
occurrence of the pattern, trimming cannot create one, and a second pass is
the identity. -/
theorem base_name_idem_amended (s : String) (h : okRuns s.data = true) :
    get_base_name (get_base_name s) = get_base_name s := by
  have hX : noUM (trimChars (subYears s.data)) = true :=
    noUM_trimChars (subYears_noUM s.data.length s.data le_rfl h)
  show String.mk (trimChars (subYears (trimChars (subYears s.data)))) =
    String.mk (trimChars (subYears s.data))
  rw [noUM_subYears_id _ hX, trimChars_idem]

/-- Witness for C6's amended theorem on a realistic column name. -/
theorem base_name_idem_amended_witness :
    okRuns "자살률_2021".data = true ∧
    get_base_name (get_base_name "자살률_2021") = get_base_name "자살률_2021" :=
  ⟨by decide, base_name_idem_amended "자살률_2021" (by decide)⟩

end RegionalAnalysis
